import Mathlib

/-!
Verification development for the voice-command relay server (`server.py`).

The pipeline is `process_voice_command`: raw PCM → STT (`transcribe_with_gemini`)
→ LLM + TTS (`get_llm_response_and_tts_audio`), with the text sanitizer
`clean_text_for_tts` in between.  Python strings are modelled as `List Char`,
byte strings as `List Nat`, the Gemini JSON bodies as a small JSON value type
with Python's `dict.get` / `[0]` exception semantics, and the external
libraries (requests, gTTS, pydub) as an explicit provider environment.
Exceptions that the Python code would let escape are modelled with
`Except Unit`.
-/

/-! ## Text sanitizer (`clean_text_for_tts`, server.py lines 37-49) -/

/-- Python regex `\s` / `str.strip` whitespace, restricted to the ASCII
whitespace characters (space, tab, newline, carriage return, vertical tab,
form feed). -/
def isPySpace (c : Char) : Bool :=
  c == ' ' || c == '\t' || c == '\n' || c == '\r' || c == '\x0b' || c == '\x0c'

/-- Step 1 of `clean_text_for_tts`: `re.sub(r'[\*\#]', '', text)` removes every
asterisk and hash character. -/
def removeStarHash (l : List Char) : List Char :=
  l.filter (fun c => !(c == '*' || c == '#'))

/-- Scanner for `re.sub(r'\[.*?\]', '', text)`.  The state is `none` when not
inside a candidate match, and `some buf` when a `[` has been read and `buf`
holds (reversed) the `[` and the characters read since.  `.` does not match a
newline, so a newline aborts the candidate match and flushes the buffer; a `]`
completes the (non-greedy, leftmost) match and drops the buffer. -/
def rbGo : Option (List Char) → List Char → List Char
  | Option.none, [] => []
  | Option.some buf, [] => buf.reverse
  | Option.none, c :: rest =>
    if c = '[' then rbGo (Option.some [c]) rest
    else c :: rbGo Option.none rest
  | Option.some buf, c :: rest =>
    if c = ']' then rbGo Option.none rest
    else if c = '\n' then buf.reverse ++ '\n' :: rbGo Option.none rest
    else rbGo (Option.some (c :: buf)) rest

/-- Step 2 of `clean_text_for_tts`: `re.sub(r'\[.*?\]', '', text)`. -/
def removeBrackets (l : List Char) : List Char :=
  rbGo Option.none l

/-- Step 3a of `clean_text_for_tts`: `re.sub(r'\s+', ' ', text)` replaces every
maximal whitespace run with a single space. -/
def collapseWs : List Char → List Char
  | [] => []
  | c :: rest =>
    if isPySpace c then
      match rest with
      | [] => [' ']
      | d :: _ => if isPySpace d then collapseWs rest else ' ' :: collapseWs rest
    else c :: collapseWs rest

/-- Removal of trailing characters satisfying `p` (the right half of Python
`str.strip`). -/
def dropTrail (p : Char → Bool) (l : List Char) : List Char :=
  (l.reverse.dropWhile p).reverse

/-- Step 3b of `clean_text_for_tts`: Python `str.strip()`, removing leading and
trailing whitespace. -/
def pyStrip (l : List Char) : List Char :=
  dropTrail isPySpace (l.dropWhile isPySpace)

/-- `clean_text_for_tts` (server.py lines 37-49): strips `*`/`#`, removes
`[...]` spans, collapses whitespace runs to single spaces and trims the ends.
Python `re.sub` requires a `str` argument; application to non-string values is
modelled separately at the call site. -/
def clean_text_for_tts (text : List Char) : List Char :=
  pyStrip (collapseWs (removeBrackets (removeStarHash text)))

/-! ## Python-style JSON values and the Gemini response navigation -/

/-- JSON values as produced by `response.json()`. -/
inductive JVal where
  | jnull
  | jbool (b : Bool)
  | jnum (n : Int)
  | jstr (s : List Char)
  | jarr (xs : List JVal)
  | jobj (fields : List (String × JVal))

/-- First binding of a key in a JSON object (Python dict lookup). -/
def lookupField : List (String × JVal) → String → Option JVal
  | [], _ => Option.none
  | (k, v) :: rest, key => if k = key then Option.some v else lookupField rest key

/-- Python `value.get(key, default)`: returns the default when the key is
missing, raises `AttributeError` (modelled as `Except.error`) when the value is
not a dict. -/
def pyGet : JVal → String → JVal → Except Unit JVal
  | JVal.jobj fields, key, dflt => Except.ok ((lookupField fields key).getD dflt)
  | _, _, _ => Except.error ()

/-- Python `value[0]`: first element of a list, first character of a string
(as a one-character string); raises (`IndexError`/`TypeError`/`KeyError`) on an
empty list, empty string, or any other value. -/
def pyIndex0 : JVal → Except Unit JVal
  | JVal.jarr (x :: _) => Except.ok x
  | JVal.jstr (c :: _) => Except.ok (JVal.jstr [c])
  | _ => Except.error ()

/-- The chain
`data.get('candidates', [{}])[0].get('content', {}).get('parts', [{}])[0].get('text', dflt)`
shared by the STT and LLM response handling (server.py lines 124-126 and
203-207); `dflt` is the default supplied to the final `.get('text', ...)`. -/
def extractFirstText (data : JVal) (dflt : JVal) : Except Unit JVal := do
  let cands ← pyGet data "candidates" (JVal.jarr [JVal.jobj []])
  let candidate ← pyIndex0 cands
  let content ← pyGet candidate "content" (JVal.jobj [])
  let parts ← pyGet content "parts" (JVal.jarr [JVal.jobj []])
  let part ← pyIndex0 parts
  pyGet part "text" dflt

/-- Coercion of a JSON value to a Python `str`; any method call such as
`.strip()` on a non-string raises `AttributeError`. -/
def pyStrOf : JVal → Except Unit (List Char)
  | JVal.jstr s => Except.ok s
  | _ => Except.error ()

/-- STT response parsing (server.py line 124-126):
`part.get('text', '').strip()`. -/
def sttExtract (data : JVal) : Except Unit (List Char) := do
  let t ← extractFirstText data (JVal.jstr [])
  let s ← pyStrOf t
  Except.ok (pyStrip s)

/-! ## Provider responses (requests), audio model (pydub), environment -/

/-- Body of an HTTP response as seen through `response.json()`:
`invalid` models a body on which `.json()` raises. -/
inductive JsonBody where
  | invalid
  | val (v : JVal)

/-- Outcome of a `requests.post` call: `netError` models a raised
`requests.exceptions.RequestException` (connection failure or timeout);
`reply status body` is a completed HTTP exchange.  `raise_for_status()` raises
`HTTPError` (a `RequestException`) exactly when `400 ≤ status < 600`. -/
inductive HttpResult where
  | netError
  | reply (status : Nat) (body : JsonBody)

/-- A pydub `AudioSegment`: sample data (bytes) plus frame rate, sample width
(bytes per sample) and channel count. -/
structure AudioSegmentV where
  data : List Nat
  frame_rate : Nat
  sample_width : Nat
  channels : Nat

/-- Outcome of the gTTS synthesis plus `AudioSegment.from_file` decode of the
cleaned text: `failure` models any exception in the TTS `try` block (gTTS
errors, missing FFMPEG, undecodable MP3); `decoded seg` is the decoded
audio segment. -/
inductive TtsOutcome where
  | failure
  | decoded (seg : AudioSegmentV)

/-- The sample-data transformations performed by pydub's conversions; the
resampling algorithm is library-dependent, so it is part of the environment. -/
structure PydubConv where
  resample : Nat → AudioSegmentV → List Nat
  toChannels : Nat → AudioSegmentV → List Nat
  toWidth : Nat → AudioSegmentV → List Nat

/-- pydub `set_frame_rate`: new frame rate, converted data, other parameters
unchanged. -/
def set_frame_rate (cv : PydubConv) (r : Nat) (s : AudioSegmentV) : AudioSegmentV :=
  ⟨cv.resample r s, r, s.sample_width, s.channels⟩

/-- pydub `set_channels`. -/
def set_channels (cv : PydubConv) (n : Nat) (s : AudioSegmentV) : AudioSegmentV :=
  ⟨cv.toChannels n s, s.frame_rate, s.sample_width, n⟩

/-- pydub `set_sample_width`. -/
def set_sample_width (cv : PydubConv) (w : Nat) (s : AudioSegmentV) : AudioSegmentV :=
  ⟨cv.toWidth w s, s.frame_rate, w, s.channels⟩

/-- server.py line 251:
`audio_data.set_frame_rate(16000).set_channels(1).set_sample_width(2)`. -/
def convertToTarget (cv : PydubConv) (seg : AudioSegmentV) : AudioSegmentV :=
  set_sample_width cv 2 (set_channels cv 1 (set_frame_rate cv 16000 seg))

/-- Little-endian 16-bit field of a WAV header. -/
def u16le (n : Nat) : List Nat :=
  [n % 256, n / 256 % 256]

/-- Little-endian 32-bit field of a WAV header. -/
def u32le (n : Nat) : List Nat :=
  [n % 256, n / 256 % 256, n / 65536 % 256, n / 16777216 % 256]

/-- ASCII bytes of a literal tag. -/
def asciiBytes (s : String) : List Nat :=
  s.toList.map Char.toNat

/-- The canonical 44-byte WAV header that pydub's native WAV writer emits for a
segment (RIFF chunk, fmt chunk with PCM format 1, data chunk header). -/
def wavHeader44 (s : AudioSegmentV) : List Nat :=
  asciiBytes "RIFF" ++ u32le (36 + s.data.length) ++ asciiBytes "WAVE" ++
  asciiBytes "fmt " ++ u32le 16 ++ u16le 1 ++ u16le s.channels ++
  u32le s.frame_rate ++ u32le (s.frame_rate * s.channels * s.sample_width) ++
  u16le (s.channels * s.sample_width) ++ u16le (8 * s.sample_width) ++
  asciiBytes "data" ++ u32le s.data.length

/-- `audio_data.export(raw_pcm_fp, format="wav")` (server.py line 255): the
44-byte header followed by the raw sample data. -/
def exportWav (s : AudioSegmentV) : List Nat :=
  wavHeader44 s ++ s.data

/-- server.py lines 256-258: `raw_pcm_fp.seek(44)` then `read()` — drop the
first 44 bytes of the exported WAV, whatever the input length. -/
def stripWavHeader (b : List Nat) : List Nat :=
  b.drop 44

/-- A Flask `Response` as the code constructs it: a body (bytes) and a
status code. -/
structure FlaskResponse where
  body : List Nat
  status : Nat

/-- `Response("TTS_CONVERSION_ERROR", status=500)` (server.py line 271). -/
def sentinelResponse : FlaskResponse :=
  ⟨asciiBytes "TTS_CONVERSION_ERROR", 500⟩

/-- External-collaborator behaviour for one pipeline invocation:
`convert_raw_pcm_to_wav_base64` (pydub + base64, server.py lines 54-79, `none`
models the caught conversion exception), the STT and LLM HTTP exchanges keyed
by their request payloads, the gTTS/pydub synthesis keyed by the cleaned text,
the pydub conversion functions, and the `random.randint(10000, 99999)` seed. -/
structure ProviderEnv where
  convert_raw_pcm_to_wav_base64 : List Nat → Option (List Char)
  stt : List Char → HttpResult
  llm : List Char → HttpResult
  tts : List Char → TtsOutcome
  conv : PydubConv
  seed : Nat

/-! ## The pipeline functions (server.py lines 82-300) -/

/-- `transcribe_with_gemini` (server.py lines 82-140): returns the stripped
transcript, or `none` on conversion failure, any `RequestException`
(connection error, timeout, or `raise_for_status` on a 4xx/5xx), any parsing
exception, or an empty stripped transcript.  Every exception inside the
function is caught, so the result type is a plain `Option`. -/
def transcribe_with_gemini (env : ProviderEnv) (raw_pcm_data : List Nat) :
    Option (List Char) :=
  match env.convert_raw_pcm_to_wav_base64 raw_pcm_data with
  | Option.none => Option.none
  | Option.some b64 =>
    match env.stt b64 with
    | HttpResult.netError => Option.none
    | HttpResult.reply status body =>
      if 400 ≤ status ∧ status < 600 then Option.none
      else
        match body with
        | JsonBody.invalid => Option.none
        | JsonBody.val data =>
          match sttExtract data with
          | Except.error _ => Option.none
          | Except.ok t => if t = [] then Option.none else Option.some t

/-- Fixed default assigned to `text_response` before the LLM call
(server.py line 152). -/
def llmDefaultMsg : List Char :=
  ("Sorry, I encountered an unknown error during processing. Status update failed.").toList

/-- Fallback on `requests.exceptions.RequestException` (server.py line 211). -/
def llmConnFailMsg : List Char :=
  ("Connection failure. We" ++ String.singleton (Char.ofNat 39) ++ "re running out of time.").toList

/-- Fallback on any other exception in the LLM `try` block
(server.py line 214). -/
def llmInvalidMsg : List Char :=
  ("Invalid data stream. System integrity compromised.").toList

/-- The clarification prompt used when transcription yields no text
(server.py line 283). -/
def clarificationMsg : List Char :=
  ("No audio payload detected. Speak clearly.").toList

/-- The user-visible part of the LLM request payload (server.py lines 155 and
171): `f"User query: {prompt_text}{random_seed}"`. -/
def llmRequestText (seed : Nat) (prompt_text : List Char) : List Char :=
  ("User query: ").toList ++ prompt_text ++ (" (seed: ").toList ++
    (toString seed).toList ++ (")").toList

/-- The value bound to `text_response` after the LLM `try`/`except` block
(server.py lines 152-214).  On a `RequestException` (including 4xx/5xx via
`raise_for_status`) it is the connection-failure fallback; on any other
exception (`.json()` failure or an extraction error) the malformed-data
fallback; otherwise it is the extracted JSON value, which is the fixed default
when the `text` field is absent and need not be a string. -/
def llmStage (r : HttpResult) : JVal :=
  match r with
  | HttpResult.netError => JVal.jstr llmConnFailMsg
  | HttpResult.reply status body =>
    if 400 ≤ status ∧ status < 600 then JVal.jstr llmConnFailMsg
    else
      match body with
      | JsonBody.invalid => JVal.jstr llmInvalidMsg
      | JsonBody.val data =>
        match extractFirstText data (JVal.jstr llmDefaultMsg) with
        | Except.ok v => v
        | Except.error _ => JVal.jstr llmInvalidMsg

/-- String content of a JSON value, empty for non-strings (used only to state
theorems about the text actually handed to the sanitizer). -/
def JVal.strContent : JVal → List Char
  | JVal.jstr s => s
  | _ => []

/-- `get_llm_response_and_tts_audio` (server.py lines 143-271).  The LLM block
never raises; `clean_text_for_tts` is applied OUTSIDE any `try`, and Python
`re.sub` raises `TypeError` on a non-string argument, which escapes the
function (`Except.error`).  The TTS `try` block returns the raw-PCM response
on success and the sentinel on any exception.  The debug MP3 save has its own
inner `try`/`except` and cannot affect the result. -/
def get_llm_response_and_tts_audio (env : ProviderEnv) (prompt_text : List Char) :
    Except Unit FlaskResponse :=
  match llmStage (env.llm (llmRequestText env.seed prompt_text)) with
  | JVal.jstr s =>
    let cleaned := clean_text_for_tts s
    match env.tts cleaned with
    | TtsOutcome.failure => Except.ok sentinelResponse
    | TtsOutcome.decoded seg =>
      Except.ok ⟨stripWavHeader (exportWav (convertToTarget env.conv seg)), 200⟩
  | _ => Except.error ()

/-- `process_voice_command` (server.py lines 274-286): STT, then
`if not transcribed_text:` substitute the clarification prompt, then the
LLM/TTS stage. -/
def process_voice_command (env : ProviderEnv) (raw_pcm_data : List Nat) :
    Except Unit FlaskResponse :=
  match transcribe_with_gemini env raw_pcm_data with
  | Option.none => get_llm_response_and_tts_audio env clarificationMsg
  | Option.some t =>
    if t = [] then get_llm_response_and_tts_audio env clarificationMsg
    else get_llm_response_and_tts_audio env t

/-- The prompt text actually passed to `get_llm_response_and_tts_audio` by
`process_voice_command` (specification glue for stating theorems). -/
def pipelinePrompt (env : ProviderEnv) (raw_pcm_data : List Nat) : List Char :=
  match transcribe_with_gemini env raw_pcm_data with
  | Option.none => clarificationMsg
  | Option.some t => if t = [] then clarificationMsg else t

/-- The cleaned text handed to the TTS stage on a given run (specification
glue). -/
def pipelineCleanedText (env : ProviderEnv) (raw_pcm_data : List Nat) : List Char :=
  clean_text_for_tts
    (JVal.strContent (llmStage (env.llm (llmRequestText env.seed (pipelinePrompt env raw_pcm_data)))))

/-! ## Output-shape predicates for the sanitizer -/

/-- Every whitespace character of the list is a plain space. -/
def allWsIsSpace (l : List Char) : Bool :=
  l.all (fun c => !isPySpace c || c == ' ')

/-- No two adjacent whitespace characters. -/
def noDoubleSpace : List Char → Bool
  | c :: d :: rest => (!(isPySpace c && isPySpace d)) && noDoubleSpace (d :: rest)
  | _ => true

/-- An optional boundary character that is not whitespace. -/
def headOk (o : Option Char) : Bool :=
  match o with
  | Option.none => true
  | Option.some c => !isPySpace c

/-- Neither end of the list is whitespace. -/
def trimmedB (l : List Char) : Bool :=
  headOk l.head? && headOk l.reverse.head?

/-- Whitespace is fully normalized: only single interior spaces, trimmed
ends. -/
def wsNormalized (l : List Char) : Bool :=
  allWsIsSpace l && noDoubleSpace l && trimmedB l

/-- No `[` is followed (anywhere later) by a `]`. -/
def brackFree : List Char → Bool
  | [] => true
  | c :: rest => if c = '[' then decide (']' ∉ rest) else brackFree rest

/-! ## Helper lemmas: dropWhile / pyStrip -/

theorem dropWhile_idem (p : Char → Bool) (l : List Char) :
    (l.dropWhile p).dropWhile p = l.dropWhile p := by
  induction l with
  | nil => rfl
  | cons c rest ih =>
    by_cases h : p c
    · simp [List.dropWhile_cons, h, ih]
    · simp [List.dropWhile_cons, h]

theorem dropWhile_append_self (p : Char → Bool) (b t : List Char)
    (h : (b ++ t).dropWhile p = b ++ t) : b.dropWhile p = b := by
  cases b with
  | nil => rfl
  | cons c b' =>
    by_cases hc : p c
    · exfalso
      have h1 : ((c :: b' ++ t).dropWhile p) = (b' ++ t).dropWhile p := by
        simp [List.dropWhile_cons, hc]
      have h2 : ((b' ++ t).dropWhile p).length ≤ (b' ++ t).length :=
        (List.dropWhile_sublist p).length_le
      rw [← h1, h] at h2
      simp at h2
    · simp [List.dropWhile_cons, hc]

theorem reverse_takeWhile_dropWhile (p : Char → Bool) (l : List Char) :
    (l.reverse.dropWhile p).reverse ++ (l.reverse.takeWhile p).reverse = l := by
  rw [← List.reverse_append, List.takeWhile_append_dropWhile, List.reverse_reverse]

theorem dropTrail_append (p : Char → Bool) (l : List Char) :
    ∃ t, l = dropTrail p l ++ t :=
  ⟨(l.reverse.takeWhile p).reverse, (reverse_takeWhile_dropWhile p l).symm⟩

theorem dropTrail_dropWhile_self (p : Char → Bool) (a : List Char)
    (ha : a.dropWhile p = a) : (dropTrail p a).dropWhile p = dropTrail p a := by
  obtain ⟨t, ht⟩ := dropTrail_append p a
  apply dropWhile_append_self p _ t
  rw [← ht]
  exact ha

theorem dropTrail_idem (p : Char → Bool) (a : List Char) :
    dropTrail p (dropTrail p a) = dropTrail p a := by
  unfold dropTrail
  rw [List.reverse_reverse, dropWhile_idem]

theorem pyStrip_idem (l : List Char) : pyStrip (pyStrip l) = pyStrip l := by
  have hb := dropTrail_dropWhile_self isPySpace (l.dropWhile isPySpace) (dropWhile_idem _ _)
  show dropTrail isPySpace ((pyStrip l).dropWhile isPySpace) = pyStrip l
  rw [show (pyStrip l).dropWhile isPySpace = pyStrip l from hb]
  exact dropTrail_idem isPySpace (l.dropWhile isPySpace)

theorem mem_dropWhile (p : Char → Bool) (l : List Char) (c : Char)
    (h : c ∈ l.dropWhile p) : c ∈ l :=
  (List.dropWhile_sublist p).mem h

theorem mem_dropTrail (p : Char → Bool) (l : List Char) (c : Char)
    (h : c ∈ dropTrail p l) : c ∈ l := by
  unfold dropTrail at h
  rw [List.mem_reverse] at h
  exact List.mem_reverse.mp (mem_dropWhile p l.reverse c h)

theorem mem_pyStrip (l : List Char) (c : Char) (h : c ∈ pyStrip l) : c ∈ l :=
  mem_dropWhile isPySpace l c (mem_dropTrail isPySpace _ c h)

theorem dropWhile_head_false (p : Char → Bool) (l : List Char) (c : Char) (rest : List Char)
    (h : l.dropWhile p = c :: rest) : p c = false := by
  induction l with
  | nil => simp [List.dropWhile_nil] at h
  | cons a l' ih =>
    by_cases ha : p a
    · rw [List.dropWhile_cons, if_pos ha] at h
      exact ih h
    · rw [List.dropWhile_cons, if_neg ha] at h
      cases h
      simpa using ha

theorem pyStrip_trimmed (l : List Char) : trimmedB (pyStrip l) = true := by
  unfold trimmedB
  rw [Bool.and_eq_true]
  constructor
  · obtain ⟨t, ht⟩ := dropTrail_append isPySpace (l.dropWhile isPySpace)
    cases hps : pyStrip l with
    | nil => simp [headOk]
    | cons c cs =>
      have heq : l.dropWhile isPySpace = c :: (cs ++ t) := by
        rw [ht]
        show pyStrip l ++ t = _
        rw [hps]
        simp
      have hc := dropWhile_head_false isPySpace l c (cs ++ t) heq
      simp [headOk, hc]
  · have hrev : (pyStrip l).reverse = ((l.dropWhile isPySpace).reverse).dropWhile isPySpace := by
      unfold pyStrip dropTrail
      rw [List.reverse_reverse]
    rw [hrev]
    cases hd : ((l.dropWhile isPySpace).reverse).dropWhile isPySpace with
    | nil => simp [headOk]
    | cons c cs =>
      have hc := dropWhile_head_false isPySpace _ c cs hd
      simp [headOk, hc]

theorem dropWhile_eq_self_of_headOk (l : List Char) (h : headOk l.head? = true) :
    l.dropWhile isPySpace = l := by
  cases l with
  | nil => rfl
  | cons c cs =>
    simp [headOk] at h
    simp [List.dropWhile_cons, h]

theorem pyStrip_eq_self_of_trimmed (l : List Char) (h : trimmedB l = true) :
    pyStrip l = l := by
  unfold trimmedB at h
  rw [Bool.and_eq_true] at h
  unfold pyStrip
  rw [dropWhile_eq_self_of_headOk l h.1]
  unfold dropTrail
  rw [dropWhile_eq_self_of_headOk l.reverse h.2, List.reverse_reverse]

/-! ## Helper lemmas: collapseWs -/

theorem collapseWs_cons_nonspace (c : Char) (rest : List Char) (hc : isPySpace c = false) :
    collapseWs (c :: rest) = c :: collapseWs rest := by
  simp [collapseWs, hc]

theorem collapseWs_cons_space_nil (c : Char) (hc : isPySpace c = true) :
    collapseWs [c] = [' '] := by
  simp [collapseWs, hc]

theorem collapseWs_cons_space_space (c d : Char) (r : List Char)
    (hc : isPySpace c = true) (hd : isPySpace d = true) :
    collapseWs (c :: d :: r) = collapseWs (d :: r) := by
  simp [collapseWs, hc, hd]

theorem collapseWs_cons_space_nonspace (c d : Char) (r : List Char)
    (hc : isPySpace c = true) (hd : isPySpace d = false) :
    collapseWs (c :: d :: r) = ' ' :: collapseWs (d :: r) := by
  simp [collapseWs, hc, hd]

theorem mem_collapseWs (l : List Char) (c : Char) (h : c ∈ collapseWs l) :
    c = ' ' ∨ c ∈ l := by
  induction l with
  | nil => simp [collapseWs] at h
  | cons a rest ih =>
    cases ha : isPySpace a with
    | false =>
      rw [collapseWs_cons_nonspace a rest ha] at h
      rcases List.mem_cons.mp h with h1 | h2
      · exact Or.inr (h1 ▸ List.mem_cons_self a rest)
      · rcases ih h2 with h3 | h4
        · exact Or.inl h3
        · exact Or.inr (List.mem_cons_of_mem a h4)
    | true =>
      cases rest with
      | nil =>
        rw [collapseWs_cons_space_nil a ha] at h
        simp at h
        exact Or.inl h
      | cons d r' =>
        cases hd : isPySpace d with
        | true =>
          rw [collapseWs_cons_space_space a d r' ha hd] at h
          rcases ih h with h3 | h4
          · exact Or.inl h3
          · exact Or.inr (List.mem_cons_of_mem a h4)
        | false =>
          rw [collapseWs_cons_space_nonspace a d r' ha hd] at h
          rcases List.mem_cons.mp h with h1 | h2
          · exact Or.inl h1
          · rcases ih h2 with h3 | h4
            · exact Or.inl h3
            · exact Or.inr (List.mem_cons_of_mem a h4)

theorem wsIsSpace_collapseWs (l : List Char) (c : Char) (h : c ∈ collapseWs l)
    (hws : isPySpace c = true) : c = ' ' := by
  induction l with
  | nil => simp [collapseWs] at h
  | cons a rest ih =>
    cases ha : isPySpace a with
    | false =>
      rw [collapseWs_cons_nonspace a rest ha] at h
      rcases List.mem_cons.mp h with h1 | h2
      · subst h1
        rw [ha] at hws
        cases hws
      · exact ih h2
    | true =>
      cases rest with
      | nil =>
        rw [collapseWs_cons_space_nil a ha] at h
        simpa using h
      | cons d r' =>
        cases hd : isPySpace d with
        | true =>
          rw [collapseWs_cons_space_space a d r' ha hd] at h
          exact ih h
        | false =>
          rw [collapseWs_cons_space_nonspace a d r' ha hd] at h
          rcases List.mem_cons.mp h with h1 | h2
          · exact h1
          · exact ih h2

theorem collapseWs_allWs (l : List Char) : allWsIsSpace (collapseWs l) = true := by
  rw [allWsIsSpace, List.all_eq_true]
  intro c hc
  cases hws : isPySpace c with
  | false => simp [hws]
  | true =>
    have := wsIsSpace_collapseWs l c hc hws
    subst this
    decide

theorem noDoubleSpace_tail (c : Char) (l : List Char)
    (h : noDoubleSpace (c :: l) = true) : noDoubleSpace l = true := by
  cases l with
  | nil => rfl
  | cons d r =>
    rw [noDoubleSpace, Bool.and_eq_true] at h
    exact h.2

theorem collapseWs_noDouble (l : List Char) : noDoubleSpace (collapseWs l) = true := by
  induction l with
  | nil => rfl
  | cons c rest ih =>
    cases hc : isPySpace c with
    | false =>
      rw [collapseWs_cons_nonspace c rest hc]
      cases hrest : collapseWs rest with
      | nil => rfl
      | cons e es =>
        rw [noDoubleSpace, Bool.and_eq_true]
        refine ⟨?_, hrest ▸ ih⟩
        simp [hc]
    | true =>
      cases rest with
      | nil =>
        rw [collapseWs_cons_space_nil c hc]
        rfl
      | cons d r' =>
        cases hd : isPySpace d with
        | true =>
          rw [collapseWs_cons_space_space c d r' hc hd]
          exact ih
        | false =>
          rw [collapseWs_cons_space_nonspace c d r' hc hd,
            collapseWs_cons_nonspace d r' hd]
          rw [noDoubleSpace, Bool.and_eq_true]
          constructor
          · simp [hd]
          · rw [← collapseWs_cons_nonspace d r' hd]
            exact ih

theorem collapseWs_eq_self (l : List Char) (h1 : allWsIsSpace l = true)
    (h2 : noDoubleSpace l = true) : collapseWs l = l := by
  induction l with
  | nil => rfl
  | cons c rest ih =>
    have h1t : allWsIsSpace rest = true := by
      rw [allWsIsSpace, List.all_eq_true] at h1 ⊢
      intro x hx
      exact h1 x (List.mem_cons_of_mem c hx)
    have h2t : noDoubleSpace rest = true := noDoubleSpace_tail c rest h2
    cases hc : isPySpace c with
    | false => rw [collapseWs_cons_nonspace c rest hc, ih h1t h2t]
    | true =>
      have hcsp : c = ' ' := by
        rw [allWsIsSpace, List.all_eq_true] at h1
        have := h1 c (List.mem_cons_self c rest)
        simp [hc] at this
        exact this
      cases rest with
      | nil =>
        rw [collapseWs_cons_space_nil c hc, hcsp]
      | cons d r' =>
        have hd : isPySpace d = false := by
          rw [noDoubleSpace, Bool.and_eq_true] at h2
          have := h2.1
          simp [hc] at this
          exact this
        rw [collapseWs_cons_space_nonspace c d r' hc hd, ih h1t h2t, hcsp]

/-! ## Helper lemmas: brackFree and rbGo -/

theorem brackFree_of_no_close (l : List Char) (h : ']' ∉ l) : brackFree l = true := by
  induction l with
  | nil => rfl
  | cons c rest ih =>
    have h1 : ']' ∉ rest := fun hm => h (List.mem_cons_of_mem c hm)
    by_cases hc : c = '['
    · simp [brackFree, hc, h1]
    · simp only [brackFree, hc, if_false]
      exact ih h1

theorem brackFree_tail (c : Char) (l : List Char) (h : brackFree (c :: l) = true) :
    brackFree l = true := by
  by_cases hc : c = '['
  · simp [brackFree, hc] at h
    exact brackFree_of_no_close l h
  · simpa [brackFree, hc] using h

theorem brackFree_append_left (a b : List Char) (h : brackFree (a ++ b) = true) :
    brackFree a = true := by
  induction a with
  | nil => rfl
  | cons c a' ih =>
    by_cases hc : c = '['
    · simp [brackFree, hc] at h ⊢
      exact h.1
    · simp only [brackFree, hc, if_false] at h ⊢
      exact ih (by simpa using h)

theorem brackFree_dropWhile (p : Char → Bool) (l : List Char)
    (h : brackFree l = true) : brackFree (l.dropWhile p) = true := by
  induction l with
  | nil => rfl
  | cons c rest ih =>
    by_cases hp : p c
    · rw [List.dropWhile_cons, if_pos hp]
      exact ih (brackFree_tail c rest h)
    · rw [List.dropWhile_cons, if_neg hp]
      exact h

theorem brackFree_dropTrail (p : Char → Bool) (l : List Char)
    (h : brackFree l = true) : brackFree (dropTrail p l) = true := by
  obtain ⟨t, ht⟩ := dropTrail_append p l
  rw [ht] at h
  exact brackFree_append_left _ t h

theorem brackFree_pyStrip (l : List Char) (h : brackFree l = true) :
    brackFree (pyStrip l) = true :=
  brackFree_dropTrail isPySpace _ (brackFree_dropWhile isPySpace l h)

theorem brackFree_collapseWs (l : List Char) (h : brackFree l = true) :
    brackFree (collapseWs l) = true := by
  induction l with
  | nil => rfl
  | cons c rest ih =>
    cases hc : isPySpace c with
    | false =>
      rw [collapseWs_cons_nonspace c rest hc]
      by_cases hcb : c = '['
      · subst hcb
        simp [brackFree] at h ⊢
        intro hm
        rcases mem_collapseWs rest ']' hm with h1 | h2
        · cases h1
        · exact h h2
      · simp only [brackFree, hcb, if_false] at h ⊢
        exact ih h
    | true =>
      have hcb : c ≠ '[' := by
        intro he
        subst he
        cases hc
      have hrest : brackFree rest = true := by simpa [brackFree, hcb] using h
      cases rest with
      | nil =>
        rw [collapseWs_cons_space_nil c hc]
        rfl
      | cons d r' =>
        cases hd : isPySpace d with
        | true =>
          rw [collapseWs_cons_space_space c d r' hc hd]
          exact ih hrest
        | false =>
          rw [collapseWs_cons_space_nonspace c d r' hc hd]
          have : (' ' : Char) ≠ '[' := by decide
          simp only [brackFree, this, if_false]
          exact ih hrest

theorem rbGo_mem (l : List Char) (c : Char) :
    (c ∈ rbGo Option.none l → c ∈ l) ∧
    (∀ buf, c ∈ rbGo (Option.some buf) l → c ∈ buf ∨ c ∈ l) := by
  induction l with
  | nil =>
    constructor
    · intro h
      simp [rbGo] at h
    · intro buf h
      simp only [rbGo] at h
      exact Or.inl (List.mem_reverse.mp h)
  | cons a rest ih =>
    obtain ⟨ih1, ih2⟩ := ih
    constructor
    · intro h
      by_cases ha : a = '['
      · rw [show rbGo Option.none (a :: rest) = rbGo (Option.some [a]) rest by
          simp [rbGo, ha]] at h
        rcases ih2 [a] h with h1 | h2
        · simp at h1
          exact h1 ▸ List.mem_cons_self a rest
        · exact List.mem_cons_of_mem a h2
      · rw [show rbGo Option.none (a :: rest) = a :: rbGo Option.none rest by
          simp [rbGo, ha]] at h
        rcases List.mem_cons.mp h with h1 | h2
        · exact h1 ▸ List.mem_cons_self a rest
        · exact List.mem_cons_of_mem a (ih1 h2)
    · intro buf h
      by_cases ha : a = ']'
      · rw [show rbGo (Option.some buf) (a :: rest) = rbGo Option.none rest by
          simp [rbGo, ha]] at h
        exact Or.inr (List.mem_cons_of_mem a (ih1 h))
      · by_cases ha2 : a = '\n'
        · rw [show rbGo (Option.some buf) (a :: rest) =
              buf.reverse ++ '\n' :: rbGo Option.none rest by simp [rbGo, ha, ha2]] at h
          rcases List.mem_append.mp h with h1 | h2
          · exact Or.inl (List.mem_reverse.mp h1)
          · rcases List.mem_cons.mp h2 with h3 | h4
            · refine Or.inr ?_
              rw [h3, ← ha2]
              exact List.mem_cons_self a rest
            · exact Or.inr (List.mem_cons_of_mem a (ih1 h4))
        · rw [show rbGo (Option.some buf) (a :: rest) =
              rbGo (Option.some (a :: buf)) rest by simp [rbGo, ha, ha2]] at h
          rcases ih2 (a :: buf) h with h1 | h2
          · rcases List.mem_cons.mp h1 with h3 | h4
            · exact Or.inr (h3 ▸ List.mem_cons_self a rest)
            · exact Or.inl h4
          · exact Or.inr (List.mem_cons_of_mem a h2)

theorem rbGo_brackFree (l : List Char) (hl : '\n' ∉ l) :
    (brackFree (rbGo Option.none l) = true) ∧
    (∀ buf, ']' ∉ buf → brackFree (rbGo (Option.some buf) l) = true) := by
  induction l with
  | nil =>
    constructor
    · rfl
    · intro buf hbuf
      simp only [rbGo]
      exact brackFree_of_no_close _ (fun hm => hbuf (List.mem_reverse.mp hm))
  | cons a rest ih =>
    have hlr : '\n' ∉ rest := fun h => hl (List.mem_cons_of_mem a h)
    have hla : a ≠ '\n' := fun h => hl (h ▸ List.mem_cons_self a rest)
    obtain ⟨ih1, ih2⟩ := ih hlr
    constructor
    · by_cases ha : a = '['
      · rw [show rbGo Option.none (a :: rest) = rbGo (Option.some [a]) rest by
          simp [rbGo, ha]]
        apply ih2 [a]
        simp [ha]
      · rw [show rbGo Option.none (a :: rest) = a :: rbGo Option.none rest by
          simp [rbGo, ha]]
        simp only [brackFree, ha, if_false]
        exact ih1
    · intro buf hbuf
      by_cases ha : a = ']'
      · rw [show rbGo (Option.some buf) (a :: rest) = rbGo Option.none rest by
          simp [rbGo, ha]]
        exact ih1
      · rw [show rbGo (Option.some buf) (a :: rest) =
            rbGo (Option.some (a :: buf)) rest by simp [rbGo, ha, hla]]
        apply ih2 (a :: buf)
        intro hm
        rcases List.mem_cons.mp hm with h1 | h2
        · exact ha h1.symm
        · exact hbuf h2

theorem rbGo_some_no_close (l : List Char) (h1 : ']' ∉ l) (h2 : '\n' ∉ l) :
    ∀ buf, rbGo (Option.some buf) l = buf.reverse ++ l := by
  induction l with
  | nil =>
    intro buf
    simp [rbGo]
  | cons a rest ih =>
    intro buf
    have ha1 : a ≠ ']' := fun h => h1 (h ▸ List.mem_cons_self a rest)
    have ha2 : a ≠ '\n' := fun h => h2 (h ▸ List.mem_cons_self a rest)
    rw [show rbGo (Option.some buf) (a :: rest) =
        rbGo (Option.some (a :: buf)) rest by simp [rbGo, ha1, ha2]]
    rw [ih (fun h => h1 (List.mem_cons_of_mem a h))
        (fun h => h2 (List.mem_cons_of_mem a h)) (a :: buf)]
    simp

theorem rbGo_none_brackFree (l : List Char) (hb : brackFree l = true) (hn : '\n' ∉ l) :
    rbGo Option.none l = l := by
  induction l with
  | nil => rfl
  | cons a rest ih =>
    have hnr : '\n' ∉ rest := fun h => hn (List.mem_cons_of_mem a h)
    by_cases ha : a = '['
    · have h1 : ']' ∉ rest := by
        rw [ha] at hb
        simpa [brackFree] using hb
      rw [show rbGo Option.none (a :: rest) = rbGo (Option.some [a]) rest by
        simp [rbGo, ha]]
      rw [rbGo_some_no_close rest h1 hnr [a]]
      simp
    · rw [show rbGo Option.none (a :: rest) = a :: rbGo Option.none rest by
        simp [rbGo, ha]]
      rw [ih (by simpa [brackFree, ha] using hb) hnr]

/-! ## Composition lemmas for the sanitizer -/

theorem mem_removeBrackets (l : List Char) (c : Char) (h : c ∈ removeBrackets l) :
    c ∈ l :=
  (rbGo_mem l c).1 h

theorem mem_removeStarHash (l : List Char) (c : Char) (h : c ∈ removeStarHash l) :
    c ∈ l ∧ (c == '*' || c == '#') = false := by
  rw [removeStarHash, List.mem_filter] at h
  refine ⟨h.1, ?_⟩
  have := h.2
  simpa using this

theorem mem_clean (l : List Char) (c : Char) (h : c ∈ clean_text_for_tts l) :
    c = ' ' ∨ (c ∈ l ∧ (c == '*' || c == '#') = false) := by
  rw [clean_text_for_tts] at h
  have h1 := mem_pyStrip _ c h
  rcases mem_collapseWs _ c h1 with h2 | h2
  · exact Or.inl h2
  · exact Or.inr (mem_removeStarHash l c (mem_removeBrackets _ c h2))

theorem clean_no_star (l : List Char) : '*' ∉ clean_text_for_tts l := by
  intro h
  rcases mem_clean l '*' h with h1 | h1
  · cases h1
  · have := h1.2
    simp at this

theorem clean_no_hash (l : List Char) : '#' ∉ clean_text_for_tts l := by
  intro h
  rcases mem_clean l '#' h with h1 | h1
  · cases h1
  · have := h1.2
    simp at this

theorem allWs_no_newline (m : List Char) (h : allWsIsSpace m = true) : '\n' ∉ m := by
  intro hm
  rw [allWsIsSpace, List.all_eq_true] at h
  have := h '\n' hm
  simp [isPySpace] at this

theorem allWsIsSpace_of_mem_subset (m m' : List Char)
    (hsub : ∀ c, c ∈ m' → c ∈ m) (h : allWsIsSpace m = true) :
    allWsIsSpace m' = true := by
  rw [allWsIsSpace, List.all_eq_true] at h ⊢
  intro c hc
  exact h c (hsub c hc)

theorem noDoubleSpace_append_left (a b : List Char)
    (h : noDoubleSpace (a ++ b) = true) : noDoubleSpace a = true := by
  induction a with
  | nil => rfl
  | cons x a' ih =>
    cases a' with
    | nil => rfl
    | cons y a'' =>
      rw [List.cons_append, List.cons_append, noDoubleSpace, Bool.and_eq_true] at h
      rw [noDoubleSpace, Bool.and_eq_true]
      exact ⟨h.1, ih h.2⟩

theorem noDoubleSpace_dropWhile (p : Char → Bool) (l : List Char)
    (h : noDoubleSpace l = true) : noDoubleSpace (l.dropWhile p) = true := by
  induction l with
  | nil => rfl
  | cons c rest ih =>
    by_cases hp : p c
    · rw [List.dropWhile_cons, if_pos hp]
      exact ih (noDoubleSpace_tail c rest h)
    · rw [List.dropWhile_cons, if_neg hp]
      exact h

theorem noDoubleSpace_pyStrip (l : List Char) (h : noDoubleSpace l = true) :
    noDoubleSpace (pyStrip l) = true := by
  obtain ⟨t, ht⟩ := dropTrail_append isPySpace (l.dropWhile isPySpace)
  have h1 : noDoubleSpace (l.dropWhile isPySpace) = true :=
    noDoubleSpace_dropWhile isPySpace l h
  rw [ht] at h1
  exact noDoubleSpace_append_left _ t h1

theorem clean_wsNormalized (l : List Char) :
    wsNormalized (clean_text_for_tts l) = true := by
  rw [wsNormalized, Bool.and_eq_true, Bool.and_eq_true]
  refine ⟨⟨?_, ?_⟩, ?_⟩
  · exact allWsIsSpace_of_mem_subset _ _ (fun c hc => mem_pyStrip _ c hc)
      (collapseWs_allWs (removeBrackets (removeStarHash l)))
  · exact noDoubleSpace_pyStrip _ (collapseWs_noDouble (removeBrackets (removeStarHash l)))
  · exact pyStrip_trimmed _

theorem removeStarHash_eq_self (m : List Char)
    (h : ∀ c ∈ m, (c == '*' || c == '#') = false) : removeStarHash m = m := by
  rw [removeStarHash, List.filter_eq_self]
  intro a ha
  simp [h a ha]

theorem clean_idem_of_no_newline (l : List Char) (hn : '\n' ∉ l) :
    clean_text_for_tts (clean_text_for_tts l) = clean_text_for_tts l := by
  have hnorm := clean_wsNormalized l
  rw [wsNormalized, Bool.and_eq_true, Bool.and_eq_true] at hnorm
  obtain ⟨⟨hAll, hNoD⟩, hTrim⟩ := hnorm
  -- step 1: the hash/star filter is the identity on the cleaned text
  have f1 : removeStarHash (clean_text_for_tts l) = clean_text_for_tts l := by
    apply removeStarHash_eq_self
    intro c hc
    rcases mem_clean l c hc with h1 | h1
    · subst h1
      decide
    · exact h1.2
  -- the cleaned text contains no newline at all
  have hnl : '\n' ∉ clean_text_for_tts l := allWs_no_newline _ hAll
  -- step 2: bracket removal is the identity on the cleaned text
  have hbr0 : '\n' ∉ removeStarHash l := fun hm => hn (mem_removeStarHash l '\n' hm).1
  have hbr1 : brackFree (removeBrackets (removeStarHash l)) = true :=
    (rbGo_brackFree (removeStarHash l) hbr0).1
  have hbr2 : brackFree (clean_text_for_tts l) = true := by
    rw [clean_text_for_tts]
    exact brackFree_pyStrip _ (brackFree_collapseWs _ hbr1)
  have f2 : removeBrackets (clean_text_for_tts l) = clean_text_for_tts l :=
    rbGo_none_brackFree _ hbr2 hnl
  -- steps 3 and 4: whitespace collapsing and stripping are identities
  have f3 : collapseWs (clean_text_for_tts l) = clean_text_for_tts l :=
    collapseWs_eq_self _ hAll hNoD
  have f4 : pyStrip (clean_text_for_tts l) = clean_text_for_tts l :=
    pyStrip_eq_self_of_trimmed _ hTrim
  calc clean_text_for_tts (clean_text_for_tts l)
      = pyStrip (collapseWs (removeBrackets (removeStarHash (clean_text_for_tts l)))) := rfl
    _ = pyStrip (collapseWs (removeBrackets (clean_text_for_tts l))) := by rw [f1]
    _ = pyStrip (collapseWs (clean_text_for_tts l)) := by rw [f2]
    _ = pyStrip (clean_text_for_tts l) := by rw [f3]
    _ = clean_text_for_tts l := f4

/-! ## Helper lemmas: pipeline plumbing -/

theorem wavHeader44_length (s : AudioSegmentV) : (wavHeader44 s).length = 44 := by
  have hRIFF : (asciiBytes "RIFF").length = 4 := rfl
  have hWAVE : (asciiBytes "WAVE").length = 4 := rfl
  have hfmt : (asciiBytes "fmt ").length = 4 := rfl
  have hdata : (asciiBytes "data").length = 4 := rfl
  have hu32 : ∀ n : Nat, (u32le n).length = 4 := fun _ => rfl
  have hu16 : ∀ n : Nat, (u16le n).length = 2 := fun _ => rfl
  unfold wavHeader44
  simp only [List.length_append, hRIFF, hWAVE, hfmt, hdata, hu32, hu16]

theorem stripWavHeader_exportWav (s : AudioSegmentV) :
    stripWavHeader (exportWav s) = s.data := by
  rw [stripWavHeader, exportWav, ← wavHeader44_length s, List.drop_left]

theorem process_eq_getLlm (env : ProviderEnv) (pcm : List Nat) :
    process_voice_command env pcm =
      get_llm_response_and_tts_audio env (pipelinePrompt env pcm) := by
  rw [process_voice_command, pipelinePrompt]
  cases transcribe_with_gemini env pcm with
  | none => rfl
  | some t =>
    by_cases ht : t = []
    · simp only [if_pos ht]
    · simp only [if_neg ht]

theorem sttExtract_ok_strip (d : JVal) (t : List Char)
    (h : sttExtract d = Except.ok t) : ∃ s, t = pyStrip s := by
  rw [sttExtract] at h
  cases he : extractFirstText d (JVal.jstr []) with
  | error e =>
    rw [he] at h
    simp [Bind.bind, Except.bind] at h
  | ok v =>
    rw [he] at h
    cases v with
    | jstr s =>
      refine ⟨s, ?_⟩
      simp [Bind.bind, Except.bind, pyStrOf] at h
      exact h.symm
    | jnull => simp [Bind.bind, Except.bind, pyStrOf] at h
    | jbool b => simp [Bind.bind, Except.bind, pyStrOf] at h
    | jnum n => simp [Bind.bind, Except.bind, pyStrOf] at h
    | jarr xs => simp [Bind.bind, Except.bind, pyStrOf] at h
    | jobj fs => simp [Bind.bind, Except.bind, pyStrOf] at h

theorem transcribe_some (env : ProviderEnv) (pcm : List Nat) (t : List Char)
    (h : transcribe_with_gemini env pcm = Option.some t) :
    t ≠ [] ∧ ∃ d, sttExtract d = Except.ok t := by
  cases hcv : env.convert_raw_pcm_to_wav_base64 pcm with
  | none => simp [transcribe_with_gemini, hcv] at h
  | some b64 =>
    cases hstt : env.stt b64 with
    | netError => simp [transcribe_with_gemini, hcv, hstt] at h
    | reply status body =>
      by_cases hs : 400 ≤ status ∧ status < 600
      · simp [transcribe_with_gemini, hcv, hstt, hs] at h
      · cases body with
        | invalid => simp [transcribe_with_gemini, hcv, hstt, hs] at h
        | val d =>
          cases hex : sttExtract d with
          | error e => simp [transcribe_with_gemini, hcv, hstt, hs, hex] at h
          | ok u =>
            by_cases hu : u = []
            · simp [transcribe_with_gemini, hcv, hstt, hs, hex, hu] at h
            · have heq : u = t := by
                simpa [transcribe_with_gemini, hcv, hstt, hs, hex, hu] using h
              exact ⟨heq ▸ hu, d, heq ▸ hex⟩

/-! ## Concrete fixtures for witnesses and counterexamples -/

/-- Pass-through pydub conversions: the sample data is left unchanged. -/
def passConv : PydubConv :=
  ⟨fun _ s => s.data, fun _ s => s.data, fun _ s => s.data⟩

/-- Pydub conversions that yield empty sample data (a zero-length decode). -/
def zeroConv : PydubConv :=
  ⟨fun _ _ => [], fun _ _ => [], fun _ _ => []⟩

/-- A well-shaped Gemini response body whose first text part is the string
`s`. -/
def geminiTextBody (s : List Char) : JVal :=
  JVal.jobj [("candidates", JVal.jarr [JVal.jobj [("content",
    JVal.jobj [("parts", JVal.jarr [JVal.jobj [("text", JVal.jstr s)]])])]])]

/-- A well-shaped Gemini response body whose first text part is the JSON
number 5 rather than a string. -/
def geminiNumBody : JVal :=
  JVal.jobj [("candidates", JVal.jarr [JVal.jobj [("content",
    JVal.jobj [("parts", JVal.jarr [JVal.jobj [("text", JVal.jnum 5)]])])]])]

/-- Every provider interaction fails. -/
def envAllFail : ProviderEnv :=
  ⟨fun _ => Option.none, fun _ => HttpResult.netError, fun _ => HttpResult.netError,
   fun _ => TtsOutcome.failure, passConv, 0⟩

/-- The LLM provider answers with a well-shaped body whose text part is a JSON
number. -/
def envNumText : ProviderEnv :=
  ⟨fun _ => Option.none, fun _ => HttpResult.netError,
   fun _ => HttpResult.reply 200 (JsonBody.val geminiNumBody),
   fun _ => TtsOutcome.failure, passConv, 0⟩

/-- The LLM provider answers normally but the synthesized audio decodes to
zero samples. -/
def envEmptyAudio : ProviderEnv :=
  ⟨fun _ => Option.none, fun _ => HttpResult.netError,
   fun _ => HttpResult.reply 200 (JsonBody.val (geminiTextBody (("Take the red pill.").toList))),
   fun _ => TtsOutcome.decoded ⟨[], 24000, 2, 2⟩, zeroConv, 0⟩

/-- The STT provider completes with HTTP status 304 (not 2xx, but below the
range that `raise_for_status` treats as an error) and a valid transcript. -/
def env304 : ProviderEnv :=
  ⟨fun _ => Option.some [],
   fun _ => HttpResult.reply 304 (JsonBody.val (geminiTextBody (("hi").toList))),
   fun _ => HttpResult.netError, fun _ => TtsOutcome.failure, passConv, 0⟩

/-- Every stage succeeds. -/
def envHappy : ProviderEnv :=
  ⟨fun _ => Option.some [],
   fun _ => HttpResult.reply 200 (JsonBody.val (geminiTextBody (("hi").toList))),
   fun _ => HttpResult.reply 200 (JsonBody.val (geminiTextBody (("Follow the white rabbit.").toList))),
   fun _ => TtsOutcome.decoded ⟨[1, 2], 24000, 2, 2⟩, passConv, 0⟩

/-! ## Claim theorems -/

/-- C1, counterexample.  With a well-shaped LLM response whose text part is a
JSON number, `clean_text_for_tts` is reached with a non-string argument
outside any `try` block and the pipeline raises an unhandled `TypeError`
(`Except.error`).  With a zero-length decoded synthesis, the pipeline returns
a 200 response whose raw-PCM body is empty — neither a non-empty body nor the
sentinel (whose status is 500).  Both refute the claim as stated. -/
theorem process_voice_command_unhandled_or_empty_cex :
    process_voice_command envNumText [] = Except.error () ∧
    process_voice_command envEmptyAudio [] = Except.ok ⟨[], 200⟩ ∧
    (FlaskResponse.mk [] 200).body.length = 0 ∧
    (FlaskResponse.mk [] 200).status ≠ sentinelResponse.status :=
  ⟨rfl, rfl, rfl, by decide⟩

/-- C1 (amended): provided every reply text the LLM stage can produce is a
string, `process_voice_command` always returns normally (never an unhandled
exception): either the declared failure sentinel (`TTS_CONVERSION_ERROR`, 500)
when — and only when — the TTS/conversion stage fails, or a 200 response whose
body is exactly the converted raw-PCM sample data (non-empty whenever that
data is non-empty). -/
theorem process_voice_command_audio_or_sentinel (env : ProviderEnv) (raw_pcm : List Nat)
    (hstr : ∀ q, ∃ s, llmStage (env.llm q) = JVal.jstr s) :
    ∃ r, process_voice_command env raw_pcm = Except.ok r ∧
      ((env.tts (pipelineCleanedText env raw_pcm) = TtsOutcome.failure ∧
          r = sentinelResponse ∧ r.status = 500) ∨
       (∃ seg, env.tts (pipelineCleanedText env raw_pcm) = TtsOutcome.decoded seg ∧
          r.status = 200 ∧ r.body = (convertToTarget env.conv seg).data)) := by
  rw [process_eq_getLlm]
  obtain ⟨s, hs⟩ := hstr (llmRequestText env.seed (pipelinePrompt env raw_pcm))
  have hclean : pipelineCleanedText env raw_pcm = clean_text_for_tts s := by
    rw [pipelineCleanedText, hs]
    rfl
  simp only [get_llm_response_and_tts_audio, hs]
  cases htts : env.tts (clean_text_for_tts s) with
  | failure =>
    refine ⟨sentinelResponse, rfl, Or.inl ⟨?_, rfl, rfl⟩⟩
    rw [hclean]
    exact htts
  | decoded seg =>
    refine ⟨⟨stripWavHeader (exportWav (convertToTarget env.conv seg)), 200⟩, rfl,
      Or.inr ⟨seg, ?_, rfl, ?_⟩⟩
    · rw [hclean]
      exact htts
    · exact stripWavHeader_exportWav _

/-- C1, witness: the amended theorem applied to the all-failing environment
and the empty PCM input. -/
theorem process_voice_command_audio_or_sentinel_witness :
    ∃ r, process_voice_command envAllFail [] = Except.ok r ∧
      ((envAllFail.tts (pipelineCleanedText envAllFail []) = TtsOutcome.failure ∧
          r = sentinelResponse ∧ r.status = 500) ∨
       (∃ seg, envAllFail.tts (pipelineCleanedText envAllFail []) = TtsOutcome.decoded seg ∧
          r.status = 200 ∧ r.body = (convertToTarget envAllFail.conv seg).data)) :=
  process_voice_command_audio_or_sentinel envAllFail [] (fun _ => ⟨llmConnFailMsg, rfl⟩)

/-- C2, counterexample.  A valid-JSON response of shape `\x7b\x7d` (an empty
object) produces the fixed default error string — a third string distinct from
both fallback strings — and a well-shaped response whose text part is a JSON
number is returned as-is, not as a string at all. -/
theorem llm_fallback_two_strings_cex :
    llmStage (HttpResult.reply 200 (JsonBody.val (JVal.jobj []))) = JVal.jstr llmDefaultMsg ∧
    llmDefaultMsg ≠ llmConnFailMsg ∧ llmDefaultMsg ≠ llmInvalidMsg ∧
    llmStage (HttpResult.reply 200 (JsonBody.val geminiNumBody)) = JVal.jnum 5 :=
  ⟨rfl, by decide, by decide, rfl⟩

/-- C2 (amended): the LLM stage never raises; on a network failure or a 4xx/5xx
status it yields the connection-failure fallback string, on a response whose
JSON parsing or field navigation raises it yields the malformed-data fallback
string, and on a response the navigation handles without raising it yields the
extracted value itself (which is the fixed default error string when the text
field is missing, and need not be a string). -/
theorem llm_stage_fallback_characterization :
    (llmStage HttpResult.netError = JVal.jstr llmConnFailMsg) ∧
    (∀ st b, 400 ≤ st → st < 600 →
      llmStage (HttpResult.reply st b) = JVal.jstr llmConnFailMsg) ∧
    (∀ st, ¬(400 ≤ st ∧ st < 600) →
      llmStage (HttpResult.reply st JsonBody.invalid) = JVal.jstr llmInvalidMsg) ∧
    (∀ st d, ¬(400 ≤ st ∧ st < 600) →
      extractFirstText d (JVal.jstr llmDefaultMsg) = Except.error () →
      llmStage (HttpResult.reply st (JsonBody.val d)) = JVal.jstr llmInvalidMsg) ∧
    (∀ st d v, ¬(400 ≤ st ∧ st < 600) →
      extractFirstText d (JVal.jstr llmDefaultMsg) = Except.ok v →
      llmStage (HttpResult.reply st (JsonBody.val d)) = v) := by
  refine ⟨rfl, ?_, ?_, ?_, ?_⟩
  · intro st b h1 h2
    simp [llmStage, h1, h2]
  · intro st h
    simp [llmStage, h]
  · intro st d h hex
    simp [llmStage, h, hex]
  · intro st d v h hex
    simp [llmStage, h, hex]

/-- C2, witness: a 503 status yields the connection-failure fallback. -/
theorem llm_stage_fallback_characterization_witness :
    llmStage (HttpResult.reply 503 JsonBody.invalid) = JVal.jstr llmConnFailMsg :=
  llm_stage_fallback_characterization.2.1 503 JsonBody.invalid (by decide) (by decide)

/-- C3, counterexample.  On `"[a\n]"` the first pass leaves the brackets (the
newline blocks `.*?`) but collapses the newline to a space, so a second pass
removes `"[a ]"` entirely: the sanitizer is not idempotent. -/
theorem clean_text_idempotent_cex :
    clean_text_for_tts (clean_text_for_tts ('[' :: 'a' :: '\n' :: ']' :: [])) ≠
      clean_text_for_tts ('[' :: 'a' :: '\n' :: ']' :: []) := by
  decide

/-- C3 (amended): the sanitizer is idempotent on every input containing no
newline character. -/
theorem clean_text_idempotent_no_newline (s : List Char) (h : '\n' ∉ s) :
    clean_text_for_tts (clean_text_for_tts s) = clean_text_for_tts s :=
  clean_idem_of_no_newline s h

/-- C3, witness: the amended idempotence at a concrete newline-free string. -/
theorem clean_text_idempotent_no_newline_witness :
    clean_text_for_tts (clean_text_for_tts (("**Hello** [link] world").toList)) =
      clean_text_for_tts (("**Hello** [link] world").toList) :=
  clean_text_idempotent_no_newline (("**Hello** [link] world").toList) (by decide)

/-- C4 (confirmed): whenever transcription yields no text (`None` or the empty
string) the orchestrator does not abort: it invokes the LLM/TTS stage with the
fixed clarification prompt; whenever transcription yields non-empty text the
stage is invoked with exactly that text. -/
theorem process_voice_command_clarification_fallback (env : ProviderEnv) (pcm : List Nat) :
    ((transcribe_with_gemini env pcm = Option.none ∨
        transcribe_with_gemini env pcm = Option.some []) →
      process_voice_command env pcm = get_llm_response_and_tts_audio env clarificationMsg) ∧
    (∀ t, transcribe_with_gemini env pcm = Option.some t → t ≠ [] →
      process_voice_command env pcm = get_llm_response_and_tts_audio env t) := by
  constructor
  · intro h
    rcases h with h | h
    · rw [process_voice_command, h]
    · rw [process_voice_command, h]
      simp
  · intro t h ht
    rw [process_voice_command, h]
    simp only [if_neg ht]

/-- C4, witness: with failing audio conversion the transcription is `None` and
the clarification prompt is used. -/
theorem process_voice_command_clarification_fallback_witness :
    process_voice_command envAllFail [] =
      get_llm_response_and_tts_audio envAllFail clarificationMsg :=
  (process_voice_command_clarification_fallback envAllFail []).1 (Or.inl rfl)

/-- C5, counterexample.  On an input shorter than the 44-byte header the
stripping operation (`seek(44)` then `read()`) silently returns the empty byte
string instead of failing with an error. -/
theorem strip_wav_header_short_input_cex :
    stripWavHeader (List.replicate 10 0) = [] ∧ (List.replicate 10 0).length < 44 := by
  decide

/-- C5 (amended): the stripping operation removes exactly the first 44 bytes —
the canonical WAV header the exported segment always carries — returning only
the sample payload; on any input shorter than 44 bytes it silently yields the
empty byte string rather than an error. -/
theorem strip_wav_header_spec :
    (∀ s : AudioSegmentV, stripWavHeader (exportWav s) = s.data) ∧
    (∀ b : List Nat, b.length < 44 → stripWavHeader b = []) := by
  constructor
  · exact stripWavHeader_exportWav
  · intro b hb
    rw [stripWavHeader]
    exact List.drop_eq_nil_of_le (Nat.le_of_lt hb)

/-- C5, witness: the amended statement at a concrete segment and a concrete
short input. -/
theorem strip_wav_header_spec_witness :
    stripWavHeader (exportWav ⟨[5], 16000, 2, 1⟩) = [5] ∧
    stripWavHeader (List.replicate 7 1) = [] :=
  ⟨strip_wav_header_spec.1 ⟨[5], 16000, 2, 1⟩,
   strip_wav_header_spec.2 (List.replicate 7 1) (by decide)⟩

/-- C6 (confirmed): every successful (status-200) pipeline result carries the
sample data of a segment converted to the fixed target profile
16000 Hz / 16-bit (2 bytes) / mono, whatever the TTS provider's native
profile was. -/
theorem pipeline_target_profile (env : ProviderEnv) (pcm : List Nat) (r : FlaskResponse)
    (h : process_voice_command env pcm = Except.ok r) (h200 : r.status = 200) :
    ∃ seg, r.body = (convertToTarget env.conv seg).data ∧
      (convertToTarget env.conv seg).frame_rate = 16000 ∧
      (convertToTarget env.conv seg).sample_width = 2 ∧
      (convertToTarget env.conv seg).channels = 1 := by
  rw [process_eq_getLlm] at h
  cases hllm : llmStage (env.llm (llmRequestText env.seed (pipelinePrompt env pcm))) with
  | jstr s =>
    simp only [get_llm_response_and_tts_audio, hllm] at h
    cases htts : env.tts (clean_text_for_tts s) with
    | failure =>
      rw [htts] at h
      rw [← Except.ok.inj h] at h200
      exact absurd h200 (by decide)
    | decoded seg =>
      rw [htts] at h
      refine ⟨seg, ?_, rfl, rfl, rfl⟩
      rw [← Except.ok.inj h]
      exact stripWavHeader_exportWav _
  | jnull =>
    simp only [get_llm_response_and_tts_audio, hllm] at h
    exact Except.noConfusion h
  | jbool b =>
    simp only [get_llm_response_and_tts_audio, hllm] at h
    exact Except.noConfusion h
  | jnum n =>
    simp only [get_llm_response_and_tts_audio, hllm] at h
    exact Except.noConfusion h
  | jarr xs =>
    simp only [get_llm_response_and_tts_audio, hllm] at h
    exact Except.noConfusion h
  | jobj fs =>
    simp only [get_llm_response_and_tts_audio, hllm] at h
    exact Except.noConfusion h

/-- C6, witness: the fully successful concrete run emits the converted
samples. -/
theorem pipeline_target_profile_witness :
    ∃ seg, (FlaskResponse.mk [1, 2] 200).body = (convertToTarget envHappy.conv seg).data ∧
      (convertToTarget envHappy.conv seg).frame_rate = 16000 ∧
      (convertToTarget envHappy.conv seg).sample_width = 2 ∧
      (convertToTarget envHappy.conv seg).channels = 1 :=
  pipeline_target_profile envHappy [] ⟨[1, 2], 200⟩ rfl rfl

/-- C7, counterexample.  `raise_for_status()` raises only for 4xx/5xx, so a
completed exchange with status 304 — not a 2xx status — and a valid transcript
body is NOT reported as `None`: the transcript is returned. -/
theorem transcribe_non2xx_cex :
    transcribe_with_gemini env304 [] = Option.some (("hi").toList) ∧
    ¬(200 ≤ 304 ∧ 304 < 300) :=
  ⟨rfl, by decide⟩

/-- C7 (amended): `transcribe_with_gemini` returns `None` (and never raises —
its result type is a plain `Option`) on: audio-conversion failure, network
failure of the provider call, a 4xx/5xx HTTP status (the statuses
`raise_for_status` treats as errors), a response whose JSON parsing or field
navigation raises, and an empty (stripped) transcript text. -/
theorem transcribe_error_cases (env : ProviderEnv) (pcm : List Nat) :
    (env.convert_raw_pcm_to_wav_base64 pcm = Option.none →
      transcribe_with_gemini env pcm = Option.none) ∧
    (∀ b64, env.convert_raw_pcm_to_wav_base64 pcm = Option.some b64 →
      ((env.stt b64 = HttpResult.netError → transcribe_with_gemini env pcm = Option.none) ∧
       (∀ st b, env.stt b64 = HttpResult.reply st b → 400 ≤ st → st < 600 →
          transcribe_with_gemini env pcm = Option.none) ∧
       (∀ st, env.stt b64 = HttpResult.reply st JsonBody.invalid →
          transcribe_with_gemini env pcm = Option.none) ∧
       (∀ st d, env.stt b64 = HttpResult.reply st (JsonBody.val d) →
          sttExtract d = Except.error () → transcribe_with_gemini env pcm = Option.none) ∧
       (∀ st d, env.stt b64 = HttpResult.reply st (JsonBody.val d) →
          sttExtract d = Except.ok [] → transcribe_with_gemini env pcm = Option.none))) := by
  constructor
  · intro h
    simp [transcribe_with_gemini, h]
  · intro b64 hcv
    refine ⟨?_, ?_, ?_, ?_, ?_⟩
    · intro h
      simp [transcribe_with_gemini, hcv, h]
    · intro st b h h1 h2
      simp [transcribe_with_gemini, hcv, h, h1, h2]
    · intro st h
      by_cases hs : 400 ≤ st ∧ st < 600
      · simp [transcribe_with_gemini, hcv, h, hs]
      · simp [transcribe_with_gemini, hcv, h, hs]
    · intro st d h hex
      by_cases hs : 400 ≤ st ∧ st < 600
      · simp [transcribe_with_gemini, hcv, h, hs]
      · simp [transcribe_with_gemini, hcv, h, hs, hex]
    · intro st d h hex
      by_cases hs : 400 ≤ st ∧ st < 600
      · simp [transcribe_with_gemini, hcv, h, hs]
      · simp [transcribe_with_gemini, hcv, h, hs, hex]

/-- C7, witness: conversion failure yields `None`. -/
theorem transcribe_error_cases_witness :
    transcribe_with_gemini envAllFail [] = Option.none :=
  (transcribe_error_cases envAllFail []).1 rfl

/-- C8 (confirmed): the sanitizer is total (a plain function), maps the empty
string to the empty string, maps the specified example to exactly
`"Hello world"`, and on every input yields text whose whitespace is collapsed
to single interior spaces with trimmed ends. -/
theorem clean_text_basic_spec :
    clean_text_for_tts [] = [] ∧
    clean_text_for_tts (("**Hello** [link] world\n\n").toList) = ("Hello world").toList ∧
    ∀ s, wsNormalized (clean_text_for_tts s) = true :=
  ⟨rfl, by decide, clean_wsNormalized⟩

/-- C9 (confirmed): the sanitizer output never contains an asterisk or a hash
character — every occurrence is deleted, wherever it appears. -/
theorem clean_text_no_star_hash (s : List Char) :
    (clean_text_for_tts s).contains '*' = false ∧
    (clean_text_for_tts s).contains '#' = false := by
  constructor
  · simp [clean_no_star s]
  · simp [clean_no_hash s]

/-- C10 (confirmed): a transcript returned by `transcribe_with_gemini` is
never the empty string, and carries no leading or trailing whitespace (it is
`strip`-stable). -/
theorem transcribe_nonempty_trimmed (env : ProviderEnv) (pcm : List Nat) (t : List Char)
    (h : transcribe_with_gemini env pcm = Option.some t) :
    t ≠ [] ∧ pyStrip t = t := by
  obtain ⟨hne, d, hex⟩ := transcribe_some env pcm t h
  obtain ⟨s, hs⟩ := sttExtract_ok_strip d t hex
  refine ⟨hne, ?_⟩
  rw [hs, pyStrip_idem]

/-- C10, witness: the fully successful concrete run returns the non-empty
trimmed transcript. -/
theorem transcribe_nonempty_trimmed_witness :
    ("hi").toList ≠ [] ∧ pyStrip (("hi").toList) = ("hi").toList :=
  transcribe_nonempty_trimmed envHappy [] (("hi").toList) rfl
